import Mathlib

/-!
Verification development for the Ourbit exchange connector
(`hummingbot/connector/exchange/ourbit/`): a shallow embedding of the
connector's order-reconciliation core, its user-stream listener, the
balance bookkeeping, the cancel / place / fill-backfill REST paths and
the websocket frame decoder, together with theorems settling the spec's
claims about them.

Modelling conventions:
- Venue numeric fields (`Decimal(str(...))` values, prices, amounts,
  balances) are modelled as exact rationals `ℚ`; millisecond timestamps
  `int(x) * 1e-3` are modelled as exact division by 1000.
- Python dicts keyed by strings are modelled as association lists with
  dict semantics (update-in-place on existing key, append otherwise;
  lookup of the unique occurrence).
- A raised exception is modelled as an `Option`/error component of the
  result; `None`-able dict accesses via `.get` are `Option` fields.
-/

/-- Modelled from the spec: the internal order-state enum
(`OrderState` of `hummingbot.core.data_type.in_flight_order`, which is
outside the connector sources), states as listed in the spec's data
model. -/
inductive OrderState where
  | PENDING_CREATE
  | OPEN
  | PARTIALLY_FILLED
  | PENDING_CANCEL
  | FILLED
  | CANCELED
  | FAILED
deriving DecidableEq, Repr

/-- Modelled from the spec: terminal states are `FILLED`, `CANCELED`,
`FAILED` ("terminal states are absorbing"). -/
def OrderState.isTerminalState : OrderState → Bool
  | .FILLED => true
  | .CANCELED => true
  | .FAILED => true
  | _ => false

/-- Modelled from the spec: the total order
`PENDING_CREATE < OPEN < PARTIALLY_FILLED < terminal` used by the
monotone-transition invariant; `PENDING_CANCEL` sits between
`PARTIALLY_FILLED` and the terminal states. -/
def OrderState.rank : OrderState → Nat
  | .PENDING_CREATE => 0
  | .OPEN => 1
  | .PARTIALLY_FILLED => 2
  | .PENDING_CANCEL => 3
  | .FILLED => 4
  | .CANCELED => 4
  | .FAILED => 4

/-- A flat fee entry (`TokenAmount`): an amount of a fee token. -/
structure TokenAmount where
  amount : ℚ
  token : String
deriving DecidableEq, Repr

/-- Fee attached to a trade update (`TradeFeeBase.new_spot_fee`): the
optional percent token and the flat fees; the fee schema and trade
type arguments do not affect the recorded data and are elided. -/
structure TradeFee where
  percent_token : Option String
  flat_fees : List TokenAmount
deriving DecidableEq, Repr

/-- An order-state update (`OrderUpdate` of the core data types). -/
structure OrderUpdate where
  trading_pair : String
  update_timestamp : ℚ
  new_state : OrderState
  client_order_id : String
  exchange_order_id : Option String
deriving DecidableEq, Repr

/-- A fill record (`TradeUpdate` of the core data types). -/
structure TradeUpdate where
  trade_id : String
  client_order_id : String
  exchange_order_id : String
  trading_pair : String
  fee : TradeFee
  fill_base_amount : ℚ
  fill_quote_amount : ℚ
  fill_price : ℚ
  fill_timestamp : ℚ
deriving DecidableEq, Repr

/-- Modelled from the spec: the tracked in-flight order (`InFlightOrder`
of the core data types, outside the connector sources): immutable ids,
the current state, the last applied update timestamp, and the per-order
fill ledger keyed by `trade_id` with the accumulated filled amounts. -/
structure InFlightOrder where
  client_order_id : String
  trading_pair : String
  exchange_order_id : Option String
  current_state : OrderState
  last_update_timestamp : ℚ
  order_fills : List (String × TradeUpdate)
  executed_amount_base : ℚ
  executed_amount_quote : ℚ
deriving DecidableEq, Repr

/-- Connector-local mutable state: the tracker's active order set keyed
by client order id, and the two balance maps
(`_account_available_balances`, `_account_balances`) keyed by asset. -/
structure ConnState where
  orders : List (String × InFlightOrder)
  account_available_balances : List (String × ℚ)
  account_balances : List (String × ℚ)
deriving DecidableEq, Repr

/-! ### Python dict model over association lists -/

/-- `d.get(k)` / `d[k]`: value at the (unique) occurrence of key `k`. -/
def dictGet {α : Type} (m : List (String × α)) (k : String) : Option α :=
  match m with
  | [] => none
  | p :: rest => if p.1 = k then some p.2 else dictGet rest k

/-- `k in d`. -/
def dictContains {α : Type} (m : List (String × α)) (k : String) : Bool :=
  match m with
  | [] => false
  | p :: rest => if p.1 = k then true else dictContains rest k

/-- `d[k] = v`: update in place when the key exists, append otherwise. -/
def dictSet {α : Type} (m : List (String × α)) (k : String) (v : α) :
    List (String × α) :=
  match m with
  | [] => [(k, v)]
  | p :: rest => if p.1 = k then (k, v) :: rest else p :: dictSet rest k v

/-- `del d[k]`: remove the entry, or fail (KeyError) when absent. -/
def dictDel {α : Type} (m : List (String × α)) (k : String) :
    Option (List (String × α)) :=
  match m with
  | [] => none
  | p :: rest =>
    if p.1 = k then some rest else (dictDel rest k).map (p :: ·)

/-- Mutate the value stored at key `k` in place (used for the tracker's
updates of the in-flight order object found under a client id). -/
def dictUpdate {α : Type} (m : List (String × α)) (k : String) (f : α → α) :
    List (String × α) :=
  m.map (fun p => if p.1 = k then (p.1, f p.2) else p)

/-! ### Python `in` on strings (substring containment) -/

/-- List-level prefix test (`needle` is a prefix of `hay`). -/
def isPrefixList : List Char → List Char → Bool
  | [], _ => true
  | _ :: _, [] => false
  | a :: as, b :: bs => a = b && isPrefixList as bs

/-- List-level substring test: `needle` occurs contiguously in `hay`. -/
def listHasSub (needle : List Char) : List Char → Bool
  | [] => needle.isEmpty
  | c :: t => isPrefixList needle (c :: t) || listHasSub needle t

/-- Python's `needle in hay` on strings. -/
def pyIn (needle hay : String) : Bool :=
  listHasSub needle.data hay.data

/-! ### Error classifiers (`ourbit_exchange.py` lines 112–116) -/

/-- `_is_order_not_found_during_status_update_error`: the message text
of the status-query exception contains `"Order does not exist"`. -/
def is_order_not_found_during_status_update_error (msg : String) : Bool :=
  pyIn "Order does not exist" msg

/-- `_is_order_not_found_during_cancelation_error`: the message text of
the cancellation exception contains `"Order does not exist"`. -/
def is_order_not_found_during_cancelation_error (msg : String) : Bool :=
  pyIn "Order does not exist" msg

/-! ### Venue status table (`ourbit_constants.py` `ORDER_STATE`) -/

/-- `CONSTANTS.ORDER_STATE`: venue status string → internal state. -/
def ORDER_STATE : List (String × OrderState) :=
  [("NEW", .OPEN),
   ("PARTIALLY_FILLED", .PARTIALLY_FILLED),
   ("FILLED", .FILLED),
   ("CANCELED", .CANCELED),
   ("PENDING_CANCEL", .PENDING_CANCEL),
   ("REJECTED", .FAILED),
   ("EXPIRED", .CANCELED)]

/-- `CONSTANTS.ORDER_STATE[x]` as a fallible dict lookup. -/
def orderStateOf (x : String) : Option OrderState :=
  dictGet ORDER_STATE x

/-! ### Modelled order tracker (hummingbot core, outside connector src) -/

/-- Modelled from the spec: `InFlightOrder` absorbing a state update
(core `ClientOrderTracker` semantics, outside the connector sources).
Per the spec's monotone-state invariant: terminal states are absorbing;
an update older than the last applied timestamp or carrying a state
ranked below the current one is discarded; otherwise the state and
timestamp are applied, and the exchange order id is set once and is
immutable afterwards. -/
def InFlightOrder.applyOrderUpdate (o : InFlightOrder) (u : OrderUpdate) :
    InFlightOrder :=
  if o.current_state.isTerminalState then o
  else if u.update_timestamp < o.last_update_timestamp then o
  else if u.new_state.rank < o.current_state.rank then o
  else
    { o with
      current_state := u.new_state
      last_update_timestamp := u.update_timestamp
      exchange_order_id :=
        match o.exchange_order_id with
        | some e => some e
        | none => u.exchange_order_id }

/-- Modelled from the spec: `InFlightOrder` absorbing a fill
(core `InFlightOrder.update_with_trade_update`, outside the connector
sources). A `trade_id` already present in the fill ledger is a no-op;
a fresh one is appended and the filled totals grow accordingly. -/
def InFlightOrder.applyTradeUpdate (o : InFlightOrder) (t : TradeUpdate) :
    InFlightOrder :=
  if dictContains o.order_fills t.trade_id then o
  else
    { o with
      order_fills := o.order_fills ++ [(t.trade_id, t)]
      executed_amount_base := o.executed_amount_base + t.fill_base_amount
      executed_amount_quote := o.executed_amount_quote + t.fill_quote_amount }

/-- Modelled from the spec: the tracker routing an `OrderUpdate` to the
order stored under the update's client order id
(`_order_tracker.process_order_update` / `_process_order_update`). -/
def processOrderUpdate (s : ConnState) (u : OrderUpdate) : ConnState :=
  { s with orders :=
      dictUpdate s.orders u.client_order_id (fun o => o.applyOrderUpdate u) }

/-- Modelled from the spec: the tracker routing a `TradeUpdate` to the
order stored under the update's client order id
(`_order_tracker.process_trade_update`). -/
def processTradeUpdate (s : ConnState) (t : TradeUpdate) : ConnState :=
  { s with orders :=
      dictUpdate s.orders t.client_order_id (fun o => o.applyTradeUpdate t) }

/-- Modelled from the spec: the tracker's "not found during
cancellation / status" recovery path
(`_order_tracker.process_order_not_found`): it resolves the order
locally without raising — an order already in a terminal state is left
unchanged, otherwise the order is resolved to the terminal `FAILED`
state. -/
def processOrderNotFound (s : ConnState) (client_order_id : String) :
    ConnState :=
  { s with orders :=
      dictUpdate s.orders client_order_id (fun o =>
        if o.current_state.isTerminalState then o
        else { o with current_state := .FAILED }) }

/-- Modelled from the spec: `all_fillable_orders.get(client_order_id)` —
the view of the active order set eligible for fill tracking, modelled
as lookup in the tracked active set (`.get(None)` yields `None`). -/
def all_fillable_orders_get (s : ConnState) (cid : Option String) :
    Option InFlightOrder :=
  match cid with
  | none => none
  | some c => dictGet s.orders c

/-- Modelled from the spec: `all_updatable_orders.get(client_order_id)`
— the view of the active order set eligible for generic state updates,
modelled as lookup in the tracked active set. -/
def all_updatable_orders_get (s : ConnState) (cid : Option String) :
    Option InFlightOrder :=
  match cid with
  | none => none
  | some c => dictGet s.orders c

/-! ### User-stream event listener (`ourbit_exchange.py` lines 326–404) -/

/-- An `executionReport` push payload: the fields the listener reads.
`C` is read with `.get` (may be absent); `X` is compared and then
looked up in `ORDER_STATE`; numeric fields are pre-parsed rationals. -/
structure ExecReport where
  X : String
  C : Option String
  E : Int
  i : Nat
  n : ℚ
  N : String
  t : Nat
  l : ℚ
  L : ℚ
deriving DecidableEq, Repr

/-- One entry of an `outboundAccountPosition` payload's `"B"` list. -/
structure WsBalance where
  a : String
  f : ℚ
  l : ℚ
deriving DecidableEq, Repr

/-- A decoded push event, discriminated by its `"e"` field. -/
inductive EventMessage where
  | executionReport (r : ExecReport)
  | outboundAccountPosition (B : List WsBalance)
  | other
deriving DecidableEq, Repr

/-- A mutation the listener applies to tracker / balance state, in
application order (used to state in which order the listener applies
the acknowledgment and the fill). -/
inductive ListenerAction where
  | orderUpd (u : OrderUpdate)
  | tradeUpd (t : TradeUpdate)
  | balanceSet (asset : String) (free total : ℚ)
deriving DecidableEq, Repr

/-- An exception escaping the processing of one event (`KeyError` from
the `ORDER_STATE[...]` dict lookup is the only raise site in the
embedded handler body). -/
inductive ListenerErr where
  | keyError
deriving DecidableEq, Repr

/-- Set `(asset, free, total)` triples into the two balance maps in
order — the body of the balance-patching loops (listener lines 393–398
and `_update_balances` lines 484–490 share this shape). -/
def setPairs (av tot : List (String × ℚ)) :
    List (String × ℚ × ℚ) → List (String × ℚ) × List (String × ℚ)
  | [] => (av, tot)
  | (a, f, t) :: rest => setPairs (dictSet av a f) (dictSet tot a t) rest

/-- The body of `_user_stream_event_listener` for one dequeued event
message: returns the state at exit, the trace of applied mutations in
order, and the exception (if one escaped the `try` block; mutations
already applied before the raise persist, as in the source). -/
def handleEvent (s : ConnState) (m : EventMessage) :
    ConnState × List ListenerAction × Option ListenerErr :=
  match m with
  | .other => (s, [], none)
  | .outboundAccountPosition bs =>
      let pair := setPairs s.account_available_balances s.account_balances
        (bs.map (fun e => (e.a, e.f, e.f + e.l)))
      ({ s with account_available_balances := pair.1,
                account_balances := pair.2 },
       bs.map (fun e => .balanceSet e.a e.f (e.f + e.l)), none)
  | .executionReport r =>
      let phase1 : ConnState × List ListenerAction × Option ListenerErr :=
        match all_fillable_orders_get s r.C with
        | none => (s, [], none)
        | some tracked_order =>
          if r.X = "PARTIALLY_FILLED" ∨ r.X = "FILLED" then
            match orderStateOf r.X with
            | none => (s, [], some .keyError)
            | some new_state =>
              let step :=
                if new_state = OrderState.FILLED ∧
                    tracked_order.current_state = OrderState.PENDING_CREATE
                then
                  let ou : OrderUpdate :=
                    { trading_pair := tracked_order.trading_pair
                      update_timestamp := (r.E : ℚ) / 1000
                      new_state := .OPEN
                      client_order_id := tracked_order.client_order_id
                      exchange_order_id := some (toString r.i) }
                  (processOrderUpdate s ou, [ListenerAction.orderUpd ou])
                else (s, ([] : List ListenerAction))
              let fee : TradeFee :=
                { percent_token := none
                  flat_fees := [{ amount := r.n, token := r.N }] }
              let tu : TradeUpdate :=
                { trade_id := toString r.t
                  client_order_id := tracked_order.client_order_id
                  exchange_order_id := toString r.i
                  trading_pair := tracked_order.trading_pair
                  fee := fee
                  fill_base_amount := r.l
                  fill_quote_amount := r.l * r.L
                  fill_price := r.L
                  fill_timestamp := (r.E : ℚ) / 1000 }
              (processTradeUpdate step.1 tu,
               step.2 ++ [ListenerAction.tradeUpd tu], none)
          else (s, [], none)
      match phase1 with
      | (s1, acts1, some err) => (s1, acts1, some err)
      | (s1, acts1, none) =>
        match all_updatable_orders_get s1 r.C with
        | none => (s1, acts1, none)
        | some tracked_order =>
          match orderStateOf r.X with
          | none => (s1, acts1, some .keyError)
          | some new_state =>
            if new_state = OrderState.PENDING_CREATE then (s1, acts1, none)
            else
              let ou : OrderUpdate :=
                { trading_pair := tracked_order.trading_pair
                  update_timestamp := (r.E : ℚ) / 1000
                  new_state := new_state
                  client_order_id := tracked_order.client_order_id
                  exchange_order_id := some (toString r.i) }
              (processOrderUpdate s1 ou,
               acts1 ++ [ListenerAction.orderUpd ou], none)

/-- One item yielded to the listener by `_iter_user_event_queue`: an
event message, or an `asyncio.CancelledError` surfacing at the await
point (external task cancellation). -/
inductive QueueItem where
  | msg (m : EventMessage)
  | cancelSignal
deriving DecidableEq, Repr

/-- How a run of the listener loop ends: the queue was drained, or the
loop re-raised an external cancellation. -/
inductive LoopOutcome where
  | completed (s : ConnState)
  | cancelled (s : ConnState)
deriving DecidableEq, Repr

/-- The `_user_stream_event_listener` loop over a queue of items:
`asyncio.CancelledError` is re-raised (stopping the loop immediately);
any other per-event exception is logged and the loop continues with
the next event, keeping the mutations applied before the raise. -/
def userStreamEventListener (s : ConnState) : List QueueItem → LoopOutcome
  | [] => .completed s
  | .cancelSignal :: _ => .cancelled s
  | .msg m :: rest =>
    match handleEvent s m with
    | (s2, _, none) => userStreamEventListener s2 rest
    | (s2, _, some _) => userStreamEventListener s2 rest

/-- The state after the loop consumes one queue item (normally or with
a logged per-event failure). -/
def stepState (s : ConnState) : QueueItem → ConnState
  | .msg m => (handleEvent s m).1
  | .cancelSignal => s

/-- Whether a listener action is an order update asserting `OPEN` (the
synthesized acknowledgment the claim is about). -/
def isOpenAction : ListenerAction → Bool
  | .orderUpd u => u.new_state = OrderState.OPEN
  | _ => false

/-! ### Order placement (`ourbit_exchange.py` `_place_order`, 170–207) -/

/-- The venue's successful order-placement response fields the code
reads: `"orderId"` (numeric) and `"transactTime"` (milliseconds). -/
structure PlaceOrderResponse where
  orderId : Nat
  transactTime : Int
deriving DecidableEq, Repr

/-- `_place_order` after a successful placement request: returns
`(str(orderId), transactTime * 1e-3)` and performs no tracker or
balance mutation (the request parameters do not affect local state and
the connector state is threaded through unchanged). The float
multiplication by `1e-3` is modelled as exact division by 1000. -/
def place_order (s : ConnState) (order_result : PlaceOrderResponse) :
    ConnState × String × ℚ :=
  (s, toString order_result.orderId, (order_result.transactTime : ℚ) / 1000)

/-! ### Cancellation (`ourbit_exchange.py` `_place_cancel`, 209–235) -/

/-- The venue's cancel response: a dict whose `"orderId"` field may be
absent, or a non-dict body. -/
inductive CancelApiResult where
  | dictResp (orderId : Option String)
  | nonDict
deriving DecidableEq, Repr

/-- `isinstance(cancel_result, dict) and cancel_result.get("orderId")`:
the acknowledgment test (an empty string field is falsy in Python). -/
def cancelAck : CancelApiResult → Bool
  | .dictResp (some oid) => oid ≠ ""
  | .dictResp none => false
  | .nonDict => false

/-- The request parameters `_place_cancel` builds: the venue symbol and
either the exchange order id (when set and non-empty) or the client
order id. -/
structure CancelParams where
  symbol : String
  orderId : Option String
  origClientOrderId : Option String
deriving DecidableEq, Repr

/-- `_place_cancel`: build the cancel request parameters, submit, and
on a response dict carrying a truthy `"orderId"` assert `CANCELED` via
the tracker and return `True`; otherwise resolve the order through the
tracker's not-found path and return `False`. `time.time()` is the
`nowTime` parameter; the awaited venue response is the
`cancel_result` parameter. -/
def place_cancel (nowTime : ℚ) (s : ConnState)
    (tracked_order : InFlightOrder) (cancel_result : CancelApiResult) :
    ConnState × Bool × CancelParams :=
  let symbol := tracked_order.trading_pair.replace "-" ""
  let params : CancelParams :=
    match tracked_order.exchange_order_id with
    | some e =>
      if e ≠ "" then
        { symbol := symbol, orderId := some e, origClientOrderId := none }
      else
        { symbol := symbol, orderId := none,
          origClientOrderId := some tracked_order.client_order_id }
    | none =>
      { symbol := symbol, orderId := none,
        origClientOrderId := some tracked_order.client_order_id }
  if cancelAck cancel_result then
    let ou : OrderUpdate :=
      { trading_pair := tracked_order.trading_pair
        update_timestamp := nowTime
        new_state := .CANCELED
        client_order_id := tracked_order.client_order_id
        exchange_order_id := tracked_order.exchange_order_id }
    (processOrderUpdate s ou, true, params)
  else
    (processOrderNotFound s tracked_order.client_order_id, false, params)

/-! ### Full balance resync (`ourbit_exchange.py` `_update_balances`,
476–495) -/

/-- One entry of the `"balances"` list of the account endpoint. -/
structure RestBalanceEntry where
  asset : String
  free : ℚ
  locked : ℚ
deriving DecidableEq, Repr

/-- Delete each named asset from both balance maps in order; a missing
key is a `KeyError` (`none`), as `del` raises in the source. -/
def delAll (av tot : List (String × ℚ)) :
    List String → Option (List (String × ℚ) × List (String × ℚ))
  | [] => some (av, tot)
  | a :: rest =>
    match dictDel av a, dictDel tot a with
    | some av2, some tot2 => delAll av2 tot2 rest
    | _, _ => none

/-- `_update_balances`: record the local asset names, write every
response entry's free / free+locked into the two balance maps, then
delete every locally known asset absent from the response from both
maps (the `set` difference is modelled by filtering the local key list,
which has the same members). -/
def update_balances (av tot : List (String × ℚ))
    (balances : List RestBalanceEntry) :
    Option (List (String × ℚ) × List (String × ℚ)) :=
  let local_asset_names := tot.map Prod.fst
  let pair := setPairs av tot
    (balances.map (fun e => (e.asset, e.free, e.free + e.locked)))
  let remote_asset_names := balances.map (·.asset)
  let asset_names_to_remove :=
    local_asset_names.filter (fun a => ! remote_asset_names.contains a)
  delAll pair.1 pair.2 asset_names_to_remove

/-! ### Fill backfill (`ourbit_exchange.py` `_all_trade_updates_for_order`,
406–442) -/

/-- One element of the `myTrades` response list: the fields read when
building a `TradeUpdate`. -/
structure FillData where
  orderId : Nat
  commission : ℚ
  commissionAsset : String
  id : Nat
  qty : ℚ
  price : ℚ
  time : Int
deriving DecidableEq, Repr

/-- A REST request issued to the venue (recorded so that "no request is
issued" is expressible). -/
inductive VenueRequest where
  | myTrades (symbol : String) (orderId : Int)
deriving DecidableEq, Repr

/-- `_all_trade_updates_for_order`: when the order has no exchange
order id, return the empty update list without issuing any request and
without touching connector state; otherwise parse the id as an integer
(`int(...)`, a `ValueError` — `none` — on a non-numeric id), issue the
`myTrades` request and map each returned fill to a `TradeUpdate`. The
awaited venue response is the `fetch` parameter. -/
def all_trade_updates_for_order (s : ConnState) (order : InFlightOrder)
    (fetch : String → Int → List FillData) :
    Option (ConnState × List VenueRequest × List TradeUpdate) :=
  match order.exchange_order_id with
  | none => some (s, [], [])
  | some eoid =>
    match eoid.toInt? with
    | none => none
    | some exchange_order_id =>
      let trading_pair := order.trading_pair
      let symbol := trading_pair.replace "-" ""
      let fills_data := fetch symbol exchange_order_id
      let trade_updates := fills_data.map (fun trade =>
        { trade_id := toString trade.id
          client_order_id := order.client_order_id
          exchange_order_id := toString trade.orderId
          trading_pair := trading_pair
          fee :=
            { percent_token := some trade.commissionAsset
              flat_fees :=
                [{ amount := trade.commission,
                   token := trade.commissionAsset }] }
          fill_base_amount := trade.qty
          fill_quote_amount := trade.price * trade.qty
          fill_price := trade.price
          fill_timestamp := (trade.time : ℚ) / 1000 : TradeUpdate })
      some (s, [VenueRequest.myTrades symbol exchange_order_id],
            trade_updates)

/-! ### Push frame decoding (`ourbit_utils.py` `decompress_ws_message`,
30–41) -/

/-- A raw websocket frame: a byte string, or an already-decoded
non-bytes message (returned unchanged by the decoder). -/
inductive WsFrame (J : Type) where
  | bytes (data : List Nat)
  | other (m : J)

/-- `decompress_ws_message`, parameterised over the external library
functions it calls: `gunzip` (the `gzip.GzipFile` read, `none` when the
bytes are not a valid gzip stream), `utf8Decode` (`bytes.decode`), and
`jsonLoads` (`json.loads`, over an abstract decoded-JSON type `J`).
Any failure inside the `try` block falls back to decoding the raw
bytes as UTF-8 JSON; a failure of the fallback propagates (`none`).
A non-bytes message is returned as-is. -/
def decompress_ws_message {J : Type}
    (gunzip : List Nat → Option (List Nat))
    (utf8Decode : List Nat → Option String)
    (jsonLoads : String → Option J) :
    WsFrame J → Option J
  | .other m => some m
  | .bytes data =>
    match (gunzip data).bind (fun d => (utf8Decode d).bind jsonLoads) with
    | some j => some j
    | none => (utf8Decode data).bind jsonLoads

/-! ### First-occurrence fill deduplication (specification helper) -/

/-- Membership of a string in a list of strings (the key set view of a
fill ledger). -/
def strListContains (l : List String) (k : String) : Bool :=
  match l with
  | [] => false
  | a :: rest => if a = k then true else strListContains rest k

/-- The fills of `l` that actually extend a ledger already containing
the trade ids `seen`: the first occurrence of each fresh `trade_id`,
in delivery order. -/
def newFills (seen : List String) : List TradeUpdate → List TradeUpdate
  | [] => []
  | t :: rest =>
    if strListContains seen t.trade_id then newFills seen rest
    else t :: newFills (t.trade_id :: seen) rest

/-! ### Concrete sample data (used by witnesses and counterexamples) -/

/-- A tracked order still awaiting venue acknowledgment. -/
def sampleOrder : InFlightOrder :=
  { client_order_id := "c1", trading_pair := "BTC-USDT",
    exchange_order_id := some "99", current_state := .PENDING_CREATE,
    last_update_timestamp := 0, order_fills := [],
    executed_amount_base := 0, executed_amount_quote := 0 }

/-- A tracked order already in a terminal state. -/
def sampleTerminalOrder : InFlightOrder :=
  { client_order_id := "c2", trading_pair := "BTC-USDT",
    exchange_order_id := some "77", current_state := .FILLED,
    last_update_timestamp := 2, order_fills := [],
    executed_amount_base := 5, executed_amount_quote := 10 }

/-- A tracked order whose exchange order id was never set. -/
def sampleNoIdOrder : InFlightOrder :=
  { client_order_id := "c3", trading_pair := "BTC-USDT",
    exchange_order_id := none, current_state := .PENDING_CREATE,
    last_update_timestamp := 0, order_fills := [],
    executed_amount_base := 0, executed_amount_quote := 0 }

/-- A connector state tracking the sample orders with two assets. -/
def sampleState : ConnState :=
  { orders := [("c1", sampleOrder), ("c2", sampleTerminalOrder)],
    account_available_balances := [("BTC", 2), ("ETH", 3)],
    account_balances := [("BTC", 2), ("ETH", 3)] }

/-- An `executionReport` carrying a partial fill for `sampleOrder`. -/
def samplePartialFill : ExecReport :=
  { X := "PARTIALLY_FILLED", C := some "c1", E := 1000, i := 42, n := 0,
    N := "USDT", t := 7, l := 1, L := 2 }

/-- An `executionReport` carrying a full fill for `sampleOrder`. -/
def sampleFilledReport : ExecReport :=
  { samplePartialFill with X := "FILLED" }

/-- An `executionReport` whose venue status string is not in the
`ORDER_STATE` table. -/
def sampleWeirdReport : ExecReport :=
  { samplePartialFill with X := "WEIRD" }

/-- A sample fill record. -/
def sampleTrade1 : TradeUpdate :=
  { trade_id := "7", client_order_id := "c1", exchange_order_id := "99",
    trading_pair := "BTC-USDT",
    fee := { percent_token := none, flat_fees := [] },
    fill_base_amount := 1, fill_quote_amount := 2, fill_price := 2,
    fill_timestamp := 1 }

/-- The spec's concrete resync response: only BTC, free 1, locked 0.5. -/
def sampleRestBalances : List RestBalanceEntry :=
  [{ asset := "BTC", free := 1, locked := 1/2 }]

/-- A concrete `outboundAccountPosition` payload listing only BTC. -/
def sampleWsBalances : List WsBalance :=
  [{ a := "BTC", f := 1, l := 1/2 }]

/-- A second sample fill record with a distinct trade id. -/
def sampleTrade2 : TradeUpdate :=
  { sampleTrade1 with
    trade_id := "8"
    fill_base_amount := 2
    fill_quote_amount := 4 }

/-! ## Helper lemmas: the dict model -/

theorem dictGet_dictUpdate_self {α : Type} (m : List (String × α))
    (k : String) (f : α → α) :
    dictGet (dictUpdate m k f) k = (dictGet m k).map f := by
  induction m with
  | nil => simp [dictGet, dictUpdate]
  | cons p rest ih =>
    by_cases h : p.1 = k
    · simp [dictGet, dictUpdate, h]
    · simp [dictGet, dictUpdate, h] at ih ⊢
      exact ih

theorem dictGet_dictUpdate_ne {α : Type} (m : List (String × α))
    (k k' : String) (f : α → α) (h : k' ≠ k) :
    dictGet (dictUpdate m k f) k' = dictGet m k' := by
  induction m with
  | nil => simp [dictGet, dictUpdate]
  | cons p rest ih =>
    by_cases hp : p.1 = k
    · have : ¬ k = k' := fun hh => h hh.symm
      simp [dictGet, dictUpdate, hp, this] at ih ⊢
      exact ih
    · simp [dictGet, dictUpdate, hp] at ih ⊢
      by_cases hk : p.1 = k'
      · simp [hk]
      · simp [hk]
        exact ih

theorem dictGet_dictSet_self {α : Type} (m : List (String × α))
    (k : String) (v : α) :
    dictGet (dictSet m k v) k = some v := by
  induction m with
  | nil => simp [dictGet, dictSet]
  | cons p rest ih =>
    by_cases h : p.1 = k
    · simp [dictGet, dictSet, h]
    · simp [dictGet, dictSet, h, ih]

theorem dictGet_dictSet_ne {α : Type} (m : List (String × α))
    (k k' : String) (v : α) (h : k' ≠ k) :
    dictGet (dictSet m k v) k' = dictGet m k' := by
  induction m with
  | nil =>
    have : ¬ k = k' := fun hh => h hh.symm
    simp [dictGet, dictSet, this]
  | cons p rest ih =>
    by_cases hp : p.1 = k
    · have : ¬ k = k' := fun hh => h hh.symm
      simp [dictGet, dictSet, hp, this]
    · simp [dictGet, dictSet, hp, ih]

theorem dictContains_eq_isSome {α : Type} (m : List (String × α))
    (k : String) : dictContains m k = (dictGet m k).isSome := by
  induction m with
  | nil => simp [dictGet, dictContains]
  | cons p rest ih =>
    by_cases h : p.1 = k
    · simp [dictGet, dictContains, h]
    · simp [dictGet, dictContains, h, ih]

theorem mem_keys_iff_contains {α : Type} (m : List (String × α))
    (a : String) : a ∈ m.map Prod.fst ↔ dictContains m a = true := by
  induction m with
  | nil => simp [dictContains]
  | cons p rest ih =>
    by_cases h : p.1 = a
    · simp [dictContains, h]
    · simp [dictContains, h, ih, Ne.symm h]

theorem dictSet_keys_mem {α : Type} (m : List (String × α))
    (k a : String) (v : α) :
    a ∈ (dictSet m k v).map Prod.fst ↔ a ∈ m.map Prod.fst ∨ a = k := by
  induction m with
  | nil => simp [dictSet]
  | cons p rest ih =>
    by_cases h : p.1 = k
    · subst h
      simp [dictSet]
      tauto
    · simp [dictSet, h, ih]
      tauto

theorem dictGet_eq_none_of_not_contains {α : Type} (m : List (String × α))
    (k : String) (h : dictContains m k = false) : dictGet m k = none := by
  induction m with
  | nil => simp [dictGet]
  | cons p rest ih =>
    by_cases hp : p.1 = k
    · simp [dictContains, hp] at h
    · simp [dictContains, hp] at h
      simp [dictGet, hp, ih h]

theorem not_mem_keys_contains_false {α : Type} (m : List (String × α))
    (k : String) (h : k ∉ m.map Prod.fst) : dictContains m k = false := by
  cases hb : dictContains m k with
  | false => rfl
  | true => exact absurd ((mem_keys_iff_contains m k).mpr hb) h

theorem dictSet_keysNodup {α : Type} (m : List (String × α))
    (k : String) (v : α) (h : (m.map Prod.fst).Nodup) :
    ((dictSet m k v).map Prod.fst).Nodup := by
  induction m with
  | nil => simp [dictSet]
  | cons p rest ih =>
    rw [List.map_cons, List.nodup_cons] at h
    obtain ⟨h1, h2⟩ := h
    by_cases hp : p.1 = k
    · subst hp
      rw [show dictSet (p :: rest) p.1 v = (p.1, v) :: rest by
        simp [dictSet]]
      rw [List.map_cons, List.nodup_cons]
      exact ⟨h1, h2⟩
    · rw [show dictSet (p :: rest) k v = p :: dictSet rest k v by
        simp [dictSet, hp]]
      rw [List.map_cons, List.nodup_cons]
      refine ⟨fun hmem => ?_, ih h2⟩
      rcases (dictSet_keys_mem rest k p.1 v).mp hmem with hm | hm
      · exact h1 hm
      · exact hp hm

theorem dictDel_of_contains {α : Type} (m : List (String × α))
    (k : String) (h : dictContains m k = true) :
    ∃ m', dictDel m k = some m' := by
  induction m with
  | nil => simp [dictContains] at h
  | cons p rest ih =>
    by_cases hp : p.1 = k
    · exact ⟨rest, by simp [dictDel, hp]⟩
    · simp [dictContains, hp] at h
      obtain ⟨m', hm'⟩ := ih h
      exact ⟨p :: m', by simp [dictDel, hp, hm']⟩

theorem dictDel_get_ne {α : Type} (m m' : List (String × α))
    (k k' : String) (hdel : dictDel m k = some m') (h : k' ≠ k) :
    dictGet m' k' = dictGet m k' := by
  induction m generalizing m' with
  | nil => simp [dictDel] at hdel
  | cons p rest ih =>
    by_cases hp : p.1 = k
    · simp [dictDel, hp] at hdel
      subst hdel
      have hne : ¬ p.1 = k' := by rw [hp]; exact fun hh => h hh.symm
      simp [dictGet, hne]
    · simp [dictDel, hp] at hdel
      obtain ⟨m2, hm2, hcons⟩ := hdel
      subst hcons
      by_cases hk : p.1 = k'
      · simp [dictGet, hk]
      · simp [dictGet, hk]
        exact ih m2 hm2

theorem dictDel_contains_ne {α : Type} (m m' : List (String × α))
    (k k' : String) (hdel : dictDel m k = some m') (h : k' ≠ k) :
    dictContains m' k' = dictContains m k' := by
  rw [dictContains_eq_isSome, dictContains_eq_isSome,
    dictDel_get_ne m m' k k' hdel h]

theorem dictDel_get_self {α : Type} (m m' : List (String × α))
    (k : String) (hnd : (m.map Prod.fst).Nodup)
    (hdel : dictDel m k = some m') : dictGet m' k = none := by
  induction m generalizing m' with
  | nil => simp [dictDel] at hdel
  | cons p rest ih =>
    rw [List.map_cons, List.nodup_cons] at hnd
    obtain ⟨h1, h2⟩ := hnd
    by_cases hp : p.1 = k
    · rw [show dictDel (p :: rest) k = some rest by simp [dictDel, hp]]
        at hdel
      cases hdel
      exact dictGet_eq_none_of_not_contains rest k
        (not_mem_keys_contains_false rest k (hp ▸ h1))
    · simp [dictDel, hp] at hdel
      obtain ⟨m2, hm2, hcons⟩ := hdel
      subst hcons
      simp [dictGet, hp]
      exact ih m2 h2 hm2

theorem dictDel_keysNodup {α : Type} (m m' : List (String × α))
    (k : String) (hnd : (m.map Prod.fst).Nodup)
    (hdel : dictDel m k = some m') : (m'.map Prod.fst).Nodup := by
  induction m generalizing m' with
  | nil => simp [dictDel] at hdel
  | cons p rest ih =>
    rw [List.map_cons, List.nodup_cons] at hnd
    obtain ⟨h1, h2⟩ := hnd
    by_cases hp : p.1 = k
    · rw [show dictDel (p :: rest) k = some rest by simp [dictDel, hp]]
        at hdel
      cases hdel
      exact h2
    · simp [dictDel, hp] at hdel
      obtain ⟨m2, hm2, hcons⟩ := hdel
      subst hcons
      rw [List.map_cons, List.nodup_cons]
      refine ⟨fun hmem => ?_, ih m2 h2 hm2⟩
      have hc : dictContains m2 p.1 = dictContains rest p.1 :=
        dictDel_contains_ne rest m2 k p.1 hm2 hp
      have hf : dictContains rest p.1 = false :=
        not_mem_keys_contains_false rest p.1 h1
      have : dictContains m2 p.1 = true :=
        (mem_keys_iff_contains m2 p.1).mp hmem
      rw [hc, hf] at this
      exact Bool.false_ne_true this

/-! ## Helper lemmas: balance patching and snapshot deletion -/

theorem setPairs_get_not_mem (es : List (String × ℚ × ℚ))
    (av tot : List (String × ℚ)) (a : String)
    (h : a ∉ es.map Prod.fst) :
    dictGet (setPairs av tot es).1 a = dictGet av a ∧
    dictGet (setPairs av tot es).2 a = dictGet tot a := by
  induction es generalizing av tot with
  | nil => simp [setPairs]
  | cons e rest ih =>
    rw [List.map_cons] at h
    have hne : a ≠ e.1 := fun hh => h (by simp [hh])
    have hrest : a ∉ rest.map Prod.fst := fun hh => h (by simp [hh])
    obtain ⟨b, f, t⟩ := e
    rw [show setPairs av tot ((b, f, t) :: rest) =
      setPairs (dictSet av b f) (dictSet tot b t) rest from rfl]
    obtain ⟨ih1, ih2⟩ := ih (dictSet av b f) (dictSet tot b t) hrest
    rw [ih1, ih2]
    exact ⟨dictGet_dictSet_ne av b a f hne, dictGet_dictSet_ne tot b a t hne⟩

theorem setPairs_get_mem (es : List (String × ℚ × ℚ))
    (av tot : List (String × ℚ)) (x : String × ℚ × ℚ)
    (hnd : (es.map Prod.fst).Nodup) (hx : x ∈ es) :
    dictGet (setPairs av tot es).1 x.1 = some x.2.1 ∧
    dictGet (setPairs av tot es).2 x.1 = some x.2.2 := by
  induction es generalizing av tot with
  | nil => simp at hx
  | cons e rest ih =>
    rw [List.map_cons, List.nodup_cons] at hnd
    obtain ⟨h1, h2⟩ := hnd
    obtain ⟨b, f, t⟩ := e
    rw [show setPairs av tot ((b, f, t) :: rest) =
      setPairs (dictSet av b f) (dictSet tot b t) rest from rfl]
    rcases List.mem_cons.mp hx with hx1 | hx1
    · subst hx1
      obtain ⟨g1, g2⟩ := setPairs_get_not_mem rest
        (dictSet av b f) (dictSet tot b t) b h1
      rw [g1, g2]
      exact ⟨dictGet_dictSet_self av b f, dictGet_dictSet_self tot b t⟩
    · exact ih (dictSet av b f) (dictSet tot b t) h2 hx1

theorem setPairs_keysNodup (es : List (String × ℚ × ℚ))
    (av tot : List (String × ℚ))
    (hav : (av.map Prod.fst).Nodup) (htot : (tot.map Prod.fst).Nodup) :
    ((setPairs av tot es).1.map Prod.fst).Nodup ∧
    ((setPairs av tot es).2.map Prod.fst).Nodup := by
  induction es generalizing av tot with
  | nil => exact ⟨hav, htot⟩
  | cons e rest ih =>
    obtain ⟨b, f, t⟩ := e
    exact ih (dictSet av b f) (dictSet tot b t)
      (dictSet_keysNodup av b f hav) (dictSet_keysNodup tot b t htot)

theorem setPairs_contains_of (es : List (String × ℚ × ℚ))
    (av tot : List (String × ℚ)) (a : String)
    (h : a ∉ es.map Prod.fst) :
    dictContains (setPairs av tot es).1 a = dictContains av a ∧
    dictContains (setPairs av tot es).2 a = dictContains tot a := by
  obtain ⟨g1, g2⟩ := setPairs_get_not_mem es av tot a h
  rw [dictContains_eq_isSome, dictContains_eq_isSome, g1,
    dictContains_eq_isSome, dictContains_eq_isSome, g2]
  exact ⟨rfl, rfl⟩

theorem delAll_spec (ks : List String) (av tot : List (String × ℚ))
    (hks : ks.Nodup)
    (hin : ∀ k ∈ ks, dictContains av k = true ∧ dictContains tot k = true)
    (hav : (av.map Prod.fst).Nodup) (htot : (tot.map Prod.fst).Nodup) :
    ∃ av2 tot2, delAll av tot ks = some (av2, tot2) ∧
      (∀ a ∈ ks, dictGet av2 a = none ∧ dictGet tot2 a = none) ∧
      (∀ a, a ∉ ks → dictGet av2 a = dictGet av a ∧
        dictGet tot2 a = dictGet tot a) := by
  induction ks generalizing av tot with
  | nil => exact ⟨av, tot, rfl, by simp, fun a _ => ⟨rfl, rfl⟩⟩
  | cons k rest ih =>
    rw [List.nodup_cons] at hks
    obtain ⟨hk1, hk2⟩ := hks
    obtain ⟨hcav, hctot⟩ := hin k (List.mem_cons_self k rest)
    obtain ⟨av1, hav1⟩ := dictDel_of_contains av k hcav
    obtain ⟨tot1, htot1⟩ := dictDel_of_contains tot k hctot
    have hav1nd := dictDel_keysNodup av av1 k hav hav1
    have htot1nd := dictDel_keysNodup tot tot1 k htot htot1
    have hin1 : ∀ x ∈ rest,
        dictContains av1 x = true ∧ dictContains tot1 x = true := by
      intro x hx
      have hne : x ≠ k := fun hh => hk1 (hh ▸ hx)
      obtain ⟨c1, c2⟩ := hin x (List.mem_cons_of_mem k hx)
      rw [dictDel_contains_ne av av1 k x hav1 hne,
        dictDel_contains_ne tot tot1 k x htot1 hne]
      exact ⟨c1, c2⟩
    obtain ⟨av2, tot2, hrun, hnone, hframe⟩ :=
      ih av1 tot1 hk2 hin1 hav1nd htot1nd
    refine ⟨av2, tot2, ?_, ?_, ?_⟩
    · rw [show delAll av tot (k :: rest) = delAll av1 tot1 rest by
        simp [delAll, hav1, htot1]]
      exact hrun
    · intro a ha
      rcases List.mem_cons.mp ha with ha1 | ha1
      · subst ha1
        obtain ⟨f1, f2⟩ := hframe a hk1
        rw [f1, f2]
        exact ⟨dictDel_get_self av av1 a hav hav1,
          dictDel_get_self tot tot1 a htot htot1⟩
      · exact hnone a ha1
    · intro a ha
      have hne : a ≠ k := fun hh => ha (by simp [hh])
      have harest : a ∉ rest := fun hh => ha (by simp [hh])
      obtain ⟨f1, f2⟩ := hframe a harest
      rw [f1, f2, dictDel_get_ne av av1 k a hav1 hne,
        dictDel_get_ne tot tot1 k a htot1 hne]
      exact ⟨rfl, rfl⟩

/-! ## Helper lemmas: substring containment -/

theorem isPrefixList_iff (n h : List Char) :
    isPrefixList n h = true ↔ ∃ q, h = n ++ q := by
  induction n generalizing h with
  | nil => simp [isPrefixList]
  | cons a as ih =>
    cases h with
    | nil =>
      simp [isPrefixList]
    | cons b bs =>
      rw [show isPrefixList (a :: as) (b :: bs) =
        (decide (a = b) && isPrefixList as bs) from rfl]
      simp only [Bool.and_eq_true, decide_eq_true_eq, ih]
      constructor
      · rintro ⟨hab, q, hq⟩
        exact ⟨q, by simp [hab, hq]⟩
      · rintro ⟨q, hq⟩
        rw [List.cons_append] at hq
        cases hq
        exact ⟨rfl, q, rfl⟩

theorem listHasSub_iff (n h : List Char) :
    listHasSub n h = true ↔ ∃ p q, h = p ++ n ++ q := by
  induction h with
  | nil =>
    simp only [listHasSub, List.isEmpty_iff]
    constructor
    · intro hn
      exact ⟨[], [], by simp [hn]⟩
    · rintro ⟨p, q, hq⟩
      rcases List.append_eq_nil.mp
        (List.append_eq_nil.mp hq.symm).1 with ⟨-, h2⟩
      exact h2
  | cons c t ih =>
    rw [show listHasSub n (c :: t) =
      (isPrefixList n (c :: t) || listHasSub n t) from rfl]
    simp only [Bool.or_eq_true, isPrefixList_iff, ih]
    constructor
    · rintro (⟨q, hq⟩ | ⟨p, q, hq⟩)
      · exact ⟨[], q, by simp [hq]⟩
      · exact ⟨c :: p, q, by simp [hq]⟩
    · rintro ⟨p, q, hq⟩
      cases p with
      | nil =>
        exact Or.inl ⟨q, by simpa using hq⟩
      | cons x xs =>
        rw [List.cons_append, List.cons_append] at hq
        cases hq
        exact Or.inr ⟨xs, q, rfl⟩

theorem pyIn_iff (n h : String) :
    pyIn n h = true ↔ ∃ p q, h.data = p ++ n.data ++ q :=
  listHasSub_iff n.data h.data

/-! ## Helper lemmas: fill deduplication -/

theorem dictContains_eq_strListContains {α : Type}
    (m : List (String × α)) (k : String) :
    dictContains m k = strListContains (m.map Prod.fst) k := by
  induction m with
  | nil => simp [dictContains, strListContains]
  | cons p rest ih =>
    by_cases h : p.1 = k
    · simp [dictContains, strListContains, h]
    · simp [dictContains, strListContains, h, ih]

theorem strListContains_cons_append (s : List String) (b k : String) :
    strListContains (b :: s) k = strListContains (s ++ [b]) k := by
  induction s with
  | nil => simp [strListContains]
  | cons a rest ih =>
    by_cases hb : b = k
    · simp [strListContains, hb] at ih ⊢
      by_cases ha : a = k <;> simp [ha, ih]
    · by_cases ha : a = k <;>
        simp [strListContains, hb, ha] at ih ⊢ <;> exact ih

theorem newFills_congr (s1 s2 : List String) (l : List TradeUpdate)
    (h : ∀ x, strListContains s1 x = strListContains s2 x) :
    newFills s1 l = newFills s2 l := by
  induction l generalizing s1 s2 with
  | nil => rfl
  | cons t rest ih =>
    rw [show newFills s1 (t :: rest) =
      (if strListContains s1 t.trade_id then newFills s1 rest
       else t :: newFills (t.trade_id :: s1) rest) from rfl]
    rw [show newFills s2 (t :: rest) =
      (if strListContains s2 t.trade_id then newFills s2 rest
       else t :: newFills (t.trade_id :: s2) rest) from rfl]
    rw [h t.trade_id]
    by_cases hc : strListContains s2 t.trade_id
    · simp only [hc, if_true]
      exact ih s1 s2 h
    · have hs2 : strListContains s2 t.trade_id = false :=
        Bool.of_not_eq_true hc
      have hs1 : strListContains s1 t.trade_id = false := by
        rw [h t.trade_id]
        exact hs2
      rw [hs2]
      simp only [Bool.false_eq_true, if_false]
      rw [ih (t.trade_id :: s1) (t.trade_id :: s2) (fun x => by
        by_cases hx : t.trade_id = x <;> simp [strListContains, hx, h x])]

theorem foldl_applyTradeUpdate_exec (l : List TradeUpdate)
    (o : InFlightOrder) :
    (l.foldl InFlightOrder.applyTradeUpdate o).executed_amount_base =
      o.executed_amount_base +
        ((newFills (o.order_fills.map Prod.fst) l).map
          (·.fill_base_amount)).sum := by
  induction l generalizing o with
  | nil => simp [newFills]
  | cons t rest ih =>
    rw [List.foldl_cons]
    by_cases hc : dictContains o.order_fills t.trade_id
    · rw [show o.applyTradeUpdate t = o by
        simp [InFlightOrder.applyTradeUpdate, hc]]
      rw [ih o]
      rw [show newFills (o.order_fills.map Prod.fst) (t :: rest) =
        newFills (o.order_fills.map Prod.fst) rest by
          rw [dictContains_eq_strListContains] at hc
          simp [newFills, hc]]
    · have hc2 : strListContains (o.order_fills.map Prod.fst)
          t.trade_id = false := by
        rw [← dictContains_eq_strListContains]
        exact Bool.of_not_eq_true hc
      rw [show o.applyTradeUpdate t =
        { o with
          order_fills := o.order_fills ++ [(t.trade_id, t)]
          executed_amount_base :=
            o.executed_amount_base + t.fill_base_amount
          executed_amount_quote :=
            o.executed_amount_quote + t.fill_quote_amount } by
        simp [InFlightOrder.applyTradeUpdate, hc]]
      rw [ih _]
      rw [show newFills (o.order_fills.map Prod.fst) (t :: rest) =
        t :: newFills (t.trade_id :: o.order_fills.map Prod.fst) rest by
          simp [newFills, hc2]]
      simp only [List.map_append, List.map_cons, List.map_nil]
      rw [newFills_congr
        (o.order_fills.map Prod.fst ++ [t.trade_id])
        (t.trade_id :: o.order_fills.map Prod.fst) rest
        (fun x => (strListContains_cons_append
          (o.order_fills.map Prod.fst) t.trade_id x).symm)]
      simp [List.sum_cons]
      ring

theorem applyTradeUpdate_keysNodup (o : InFlightOrder) (t : TradeUpdate)
    (h : (o.order_fills.map Prod.fst).Nodup) :
    ((o.applyTradeUpdate t).order_fills.map Prod.fst).Nodup := by
  by_cases hc : dictContains o.order_fills t.trade_id
  · rw [show o.applyTradeUpdate t = o by
      simp [InFlightOrder.applyTradeUpdate, hc]]
    exact h
  · rw [show (o.applyTradeUpdate t).order_fills =
      o.order_fills ++ [(t.trade_id, t)] by
        simp [InFlightOrder.applyTradeUpdate, hc]]
    rw [List.map_append]
    rw [List.nodup_append]
    refine ⟨h, List.nodup_singleton _, ?_⟩
    intro x hx hx2
    simp at hx2
    subst hx2
    have := (mem_keys_iff_contains o.order_fills t.trade_id).mp hx
    exact hc this

theorem foldl_applyTradeUpdate_keysNodup (l : List TradeUpdate)
    (o : InFlightOrder) (h : (o.order_fills.map Prod.fst).Nodup) :
    (((l.foldl InFlightOrder.applyTradeUpdate o).order_fills).map
      Prod.fst).Nodup := by
  induction l generalizing o with
  | nil => exact h
  | cons t rest ih =>
    rw [List.foldl_cons]
    exact ih _ (applyTradeUpdate_keysNodup o t h)

theorem newFills_trade_ids_nodup (l : List TradeUpdate)
    (seen : List String) :
    (((newFills seen l).map (·.trade_id)).Nodup) ∧
    (∀ x ∈ newFills seen l, strListContains seen x.trade_id = false) := by
  induction l generalizing seen with
  | nil => simp [newFills]
  | cons t rest ih =>
    by_cases hc : strListContains seen t.trade_id
    · rw [show newFills seen (t :: rest) = newFills seen rest by
        simp [newFills, hc]]
      exact ih seen
    · rw [show newFills seen (t :: rest) =
        t :: newFills (t.trade_id :: seen) rest by simp [newFills, hc]]
      obtain ⟨ih1, ih2⟩ := ih (t.trade_id :: seen)
      refine ⟨?_, ?_⟩
      · rw [List.map_cons, List.nodup_cons]
        refine ⟨fun hmem => ?_, ih1⟩
        obtain ⟨x, hx, hx2⟩ := List.mem_map.mp hmem
        have := ih2 x hx
        rw [hx2] at this
        simp [strListContains] at this
      · intro x hx
        rcases List.mem_cons.mp hx with hx1 | hx1
        · subst hx1
          exact Bool.of_not_eq_true hc
        · have := ih2 x hx1
          by_cases he : t.trade_id = x.trade_id
          · simp [strListContains, he] at this
          · simpa [strListContains, he] using this

/-! ## Claim theorems -/

/-- C8: for every successful order placement, `_place_order` returns
the pair (string of the response's `orderId`, `transactTime` converted
from milliseconds to seconds — multiplying the returned time by 1000
recovers the millisecond value), and placement performs no order-state
update: the connector state is returned unchanged. -/
theorem place_order_result_spec (s : ConnState)
    (resp : PlaceOrderResponse) :
    (place_order s resp).1 = s ∧
    (place_order s resp).2.1 = toString resp.orderId ∧
    (place_order s resp).2.2 * 1000 = (resp.transactTime : ℚ) := by
  refine ⟨rfl, rfl, ?_⟩
  show (resp.transactTime : ℚ) / 1000 * 1000 = (resp.transactTime : ℚ)
  field_simp

/-- C10: for a tracked order whose exchange order id is not set,
`_all_trade_updates_for_order` returns the empty trade-update list,
issues no venue request, and leaves the connector state unchanged. -/
theorem all_trade_updates_no_exchange_id (s : ConnState)
    (order : InFlightOrder) (fetch : String → Int → List FillData)
    (h : order.exchange_order_id = none) :
    all_trade_updates_for_order s order fetch = some (s, [], []) := by
  simp [all_trade_updates_for_order, h]

/-- Witness for C10 at a concrete order with no exchange order id. -/
theorem all_trade_updates_no_exchange_id_witness :
    sampleNoIdOrder.exchange_order_id = none ∧
    all_trade_updates_for_order sampleState sampleNoIdOrder
      (fun _ _ => []) = some (sampleState, [], []) :=
  ⟨rfl, all_trade_updates_no_exchange_id sampleState sampleNoIdOrder
    (fun _ _ => []) rfl⟩

/-- C4 counterexample: the exception message `"order does not exist"`
(lower-case) does contain the claimed literal `"order does not exist"`
(it is the whole message), yet the classifier reports `false` — the
match in the code is against the case-sensitive literal
`"Order does not exist"`, so "classified exactly when the literal
string `order does not exist` occurs" fails at this input. -/
theorem order_not_found_literal_case_cex :
    is_order_not_found_during_status_update_error "order does not exist"
      = false ∧
    ∃ p q : List Char, ("order does not exist").data =
      p ++ ("order does not exist").data ++ q :=
  ⟨by decide, ⟨[], [], by simp⟩⟩

/-- C4 (amended): an exception is classified as the recoverable
order-not-found condition exactly when the case-sensitive literal
`"Order does not exist"` (capital O) occurs in its message text, and
the status-update and cancellation classifiers agree on every
exception message. -/
theorem order_not_found_classifiers_spec (msg : String) :
    (is_order_not_found_during_status_update_error msg = true ↔
      ∃ p q : List Char,
        msg.data = p ++ ("Order does not exist").data ++ q) ∧
    is_order_not_found_during_cancelation_error msg =
      is_order_not_found_during_status_update_error msg :=
  ⟨pyIn_iff "Order does not exist" msg, rfl⟩

/-- C9: for a byte frame, the decoder tries gzip first (a successful
gzip + UTF-8 + JSON pipeline is returned); when the bytes are not a
valid gzip stream it falls back to parsing the raw bytes directly as
UTF-8 JSON, so valid plain-JSON byte frames decode successfully. -/
theorem decompress_ws_message_spec {J : Type}
    (gunzip : List Nat → Option (List Nat))
    (utf8Decode : List Nat → Option String)
    (jsonLoads : String → Option J) (data : List Nat) :
    (gunzip data = none →
      decompress_ws_message gunzip utf8Decode jsonLoads (.bytes data) =
        (utf8Decode data).bind jsonLoads) ∧
    (∀ str j, gunzip data = none → utf8Decode data = some str →
      jsonLoads str = some j →
      decompress_ws_message gunzip utf8Decode jsonLoads (.bytes data) =
        some j) ∧
    (∀ d str j, gunzip data = some d → utf8Decode d = some str →
      jsonLoads str = some j →
      decompress_ws_message gunzip utf8Decode jsonLoads (.bytes data) =
        some j) := by
  refine ⟨?_, ?_, ?_⟩
  · intro hg
    simp [decompress_ws_message, hg]
  · intro str j hg hu hj
    simp [decompress_ws_message, hg, hu, hj]
  · intro d str j hg hu hj
    simp [decompress_ws_message, hg, hu, hj]

/-- Witness for C9: a plain-JSON byte frame (gzip fails) decodes via
the fallback, and a valid gzip frame decodes via the gzip path. -/
theorem decompress_ws_message_spec_witness :
    decompress_ws_message (fun _ => none) (fun _ => some "x")
      (fun _ => some (1 : Nat)) (.bytes [123]) = some 1 ∧
    decompress_ws_message (fun _ => some [32]) (fun _ => some "y")
      (fun _ => some (2 : Nat)) (.bytes [31, 139]) = some 2 :=
  ⟨(decompress_ws_message_spec (fun _ => none) (fun _ => some "x")
      (fun _ => some (1 : Nat)) [123]).2.1 "x" 1 rfl rfl rfl,
   (decompress_ws_message_spec (fun _ => some [32]) (fun _ => some "y")
      (fun _ => some (2 : Nat)) [31, 139]).2.2 [32] "y" 2 rfl rfl rfl⟩

/-- C2: for every delivery sequence of fill events for one order (push
and REST backfill interleaved arbitrarily, repeats allowed), starting
from an empty fill ledger: the final ledger holds each `trade_id` at
most once, the total filled amount is the sum over the first
occurrences of the distinct `trade_id`s only, those first occurrences
have pairwise-distinct ids, and re-applying an already-recorded
`trade_id` is a no-op. -/
theorem trade_id_dedup_total_filled (l : List TradeUpdate)
    (o : InFlightOrder) (hfills : o.order_fills = [])
    (hexec : o.executed_amount_base = 0) :
    (((l.foldl InFlightOrder.applyTradeUpdate o).order_fills).map
      Prod.fst).Nodup ∧
    (l.foldl InFlightOrder.applyTradeUpdate o).executed_amount_base =
      ((newFills [] l).map (·.fill_base_amount)).sum ∧
    ((newFills [] l).map (·.trade_id)).Nodup ∧
    (∀ (t : TradeUpdate) (o2 : InFlightOrder),
      dictContains o2.order_fills t.trade_id = true →
      o2.applyTradeUpdate t = o2) := by
  refine ⟨?_, ?_, (newFills_trade_ids_nodup l []).1, ?_⟩
  · exact foldl_applyTradeUpdate_keysNodup l o (by simp [hfills])
  · have hmain := foldl_applyTradeUpdate_exec l o
    rw [hfills] at hmain
    simpa [hexec] using hmain
  · intro t o2 hc
    simp [InFlightOrder.applyTradeUpdate, hc]

/-- Witness for C2: delivering the same fill twice plus a distinct one
counts each trade id once — the total is 1 + 2 = 3, not 4. -/
theorem trade_id_dedup_total_filled_witness :
    sampleOrder.order_fills = [] ∧
    sampleOrder.executed_amount_base = 0 ∧
    ([sampleTrade1, sampleTrade1, sampleTrade2].foldl
        InFlightOrder.applyTradeUpdate sampleOrder).executed_amount_base
      = ((newFills [] [sampleTrade1, sampleTrade1, sampleTrade2]).map
        (·.fill_base_amount)).sum ∧
    ([sampleTrade1, sampleTrade1, sampleTrade2].foldl
        InFlightOrder.applyTradeUpdate sampleOrder).executed_amount_base
      = 3 :=
  ⟨rfl, rfl,
   (trade_id_dedup_total_filled [sampleTrade1, sampleTrade1, sampleTrade2]
     sampleOrder rfl rfl).2.1,
   by
     simp [List.foldl, InFlightOrder.applyTradeUpdate, dictContains,
       sampleOrder, sampleTrade1, sampleTrade2]
     norm_num⟩

/-- `List.contains` on strings agrees with membership. -/
theorem string_list_contains_iff (l : List String) (a : String) :
    l.contains a = true ↔ a ∈ l := by
  simp [List.contains, List.elem_iff]

/-- The key list of the balance-entry triples of a push event. -/
theorem ws_triples_keys (bs : List WsBalance) :
    (bs.map (fun e => (e.a, e.f, e.f + e.l))).map Prod.fst =
      bs.map (fun e => e.a) := by
  simp [List.map_map]

/-- The key list of the balance-entry triples of a REST resync. -/
theorem rest_triples_keys (balances : List RestBalanceEntry) :
    (balances.map (fun e => (e.asset, e.free, e.free + e.locked))).map
      Prod.fst = balances.map (fun e => e.asset) := by
  simp [List.map_map]

/-- C6: an `outboundAccountPosition` event replaces the balances of
exactly the assets listed in its `"B"` payload — free set to the `"f"`
field, total to `"f"` plus `"l"` — raises nothing, records one balance
write per entry, and leaves the orders and every unlisted asset's
balance entries unchanged. -/
theorem outbound_account_position_partial_patch (s : ConnState)
    (bs : List WsBalance) (hnd : (bs.map (fun e => e.a)).Nodup) :
    (handleEvent s (.outboundAccountPosition bs)).2.1 =
      bs.map (fun e => .balanceSet e.a e.f (e.f + e.l)) ∧
    (handleEvent s (.outboundAccountPosition bs)).2.2 = none ∧
    (handleEvent s (.outboundAccountPosition bs)).1.orders = s.orders ∧
    (∀ e ∈ bs,
      dictGet (handleEvent s
        (.outboundAccountPosition bs)).1.account_available_balances e.a
        = some e.f ∧
      dictGet (handleEvent s
        (.outboundAccountPosition bs)).1.account_balances e.a
        = some (e.f + e.l)) ∧
    (∀ a, a ∉ bs.map (fun e => e.a) →
      dictGet (handleEvent s
        (.outboundAccountPosition bs)).1.account_available_balances a
        = dictGet s.account_available_balances a ∧
      dictGet (handleEvent s
        (.outboundAccountPosition bs)).1.account_balances a
        = dictGet s.account_balances a) := by
  refine ⟨rfl, rfl, rfl, ?_, ?_⟩
  · intro e he
    have hx : (e.a, e.f, e.f + e.l) ∈
        bs.map (fun e => (e.a, e.f, e.f + e.l)) :=
      List.mem_map_of_mem (fun e => (e.a, e.f, e.f + e.l)) he
    have hnd2 : ((bs.map (fun e => (e.a, e.f, e.f + e.l))).map
        Prod.fst).Nodup := by
      rw [ws_triples_keys]
      exact hnd
    exact setPairs_get_mem (bs.map (fun e => (e.a, e.f, e.f + e.l)))
      s.account_available_balances s.account_balances
      (e.a, e.f, e.f + e.l) hnd2 hx
  · intro a ha
    have ha2 : a ∉ (bs.map (fun e => (e.a, e.f, e.f + e.l))).map
        Prod.fst := by
      rw [ws_triples_keys]
      exact ha
    exact setPairs_get_not_mem (bs.map (fun e => (e.a, e.f, e.f + e.l)))
      s.account_available_balances s.account_balances a ha2

/-- C5: a full balance resync writes every response entry's free /
free+locked balances and removes every locally known asset absent from
the response from both balance maps; under the dict well-formedness
invariants (unique response assets and keys, every total-map key also
in the available map) the call succeeds without a `KeyError`. -/
theorem update_balances_snapshot_replace (av tot : List (String × ℚ))
    (balances : List RestBalanceEntry)
    (hnd : (balances.map (fun e => e.asset)).Nodup)
    (hav : (av.map Prod.fst).Nodup) (htot : (tot.map Prod.fst).Nodup)
    (hsync : ∀ a, dictContains tot a = true → dictContains av a = true) :
    ∃ av2 tot2, update_balances av tot balances = some (av2, tot2) ∧
      (∀ e ∈ balances, dictGet av2 e.asset = some e.free ∧
        dictGet tot2 e.asset = some (e.free + e.locked)) ∧
      (∀ a, dictContains tot a = true →
        a ∉ balances.map (fun e => e.asset) →
        dictGet av2 a = none ∧ dictGet tot2 a = none) := by
  have hkeys := rest_triples_keys balances
  have hnd2 : ((balances.map (fun e =>
      (e.asset, e.free, e.free + e.locked))).map Prod.fst).Nodup := by
    rw [hkeys]
    exact hnd
  obtain ⟨hp1, hp2⟩ := setPairs_keysNodup
    (balances.map (fun e => (e.asset, e.free, e.free + e.locked)))
    av tot hav htot
  have hrm : ∀ k ∈ (tot.map Prod.fst).filter
      (fun a => ! (balances.map (fun e => e.asset)).contains a),
      k ∈ tot.map Prod.fst ∧
      k ∉ balances.map (fun e => e.asset) := by
    intro k hk
    obtain ⟨hk1, hk2⟩ := List.mem_filter.mp hk
    refine ⟨hk1, fun hmem => ?_⟩
    rw [Bool.not_eq_true'] at hk2
    rw [← string_list_contains_iff] at hmem
    rw [hk2] at hmem
    exact Bool.false_ne_true hmem
  have hrmnd : ((tot.map Prod.fst).filter
      (fun a => ! (balances.map (fun e => e.asset)).contains a)).Nodup :=
    htot.filter _
  have hin : ∀ k ∈ (tot.map Prod.fst).filter
      (fun a => ! (balances.map (fun e => e.asset)).contains a),
      dictContains (setPairs av tot (balances.map (fun e =>
        (e.asset, e.free, e.free + e.locked)))).1 k = true ∧
      dictContains (setPairs av tot (balances.map (fun e =>
        (e.asset, e.free, e.free + e.locked)))).2 k = true := by
    intro k hk
    obtain ⟨hk1, hk2⟩ := hrm k hk
    have hk3 : k ∉ (balances.map (fun e =>
        (e.asset, e.free, e.free + e.locked))).map Prod.fst := by
      rw [hkeys]
      exact hk2
    obtain ⟨c1, c2⟩ := setPairs_contains_of (balances.map (fun e =>
      (e.asset, e.free, e.free + e.locked))) av tot k hk3
    have htotk := (mem_keys_iff_contains tot k).mp hk1
    rw [c1, c2]
    exact ⟨hsync k htotk, htotk⟩
  obtain ⟨av2, tot2, hrun, hnone, hframe⟩ := delAll_spec
    ((tot.map Prod.fst).filter
      (fun a => ! (balances.map (fun e => e.asset)).contains a))
    (setPairs av tot (balances.map (fun e =>
      (e.asset, e.free, e.free + e.locked)))).1
    (setPairs av tot (balances.map (fun e =>
      (e.asset, e.free, e.free + e.locked)))).2
    hrmnd hin hp1 hp2
  refine ⟨av2, tot2, hrun, ?_, ?_⟩
  · intro e he
    have hnotrm : e.asset ∉ (tot.map Prod.fst).filter
        (fun a => ! (balances.map (fun e => e.asset)).contains a) := by
      intro hmem
      exact (hrm e.asset hmem).2
        (List.mem_map_of_mem (fun e => e.asset) he)
    obtain ⟨f1, f2⟩ := hframe e.asset hnotrm
    rw [f1, f2]
    exact setPairs_get_mem (balances.map (fun e =>
      (e.asset, e.free, e.free + e.locked))) av tot
      (e.asset, e.free, e.free + e.locked) hnd2
      (List.mem_map_of_mem (fun e => (e.asset, e.free, e.free + e.locked))
        he)
  · intro a hc hnr
    have hmemrm : a ∈ (tot.map Prod.fst).filter
        (fun a => ! (balances.map (fun e => e.asset)).contains a) := by
      rw [List.mem_filter]
      refine ⟨(mem_keys_iff_contains tot a).mpr hc, ?_⟩
      rw [Bool.not_eq_true']
      cases hb : (balances.map (fun e => e.asset)).contains a with
      | false => rfl
      | true => exact absurd ((string_list_contains_iff _ a).mp hb) hnr
    exact hnone a hmemrm

/-- Witness for C5 at the spec's concrete example: resyncing local
state holding BTC and ETH against a response listing only
`BTC: free=1, locked=0.5` leaves BTC available 1 and total 3/2 and
removes the ETH entry from both maps. -/
theorem update_balances_snapshot_replace_witness :
    (sampleRestBalances.map (fun e => e.asset)).Nodup ∧
    (∃ av2 tot2, update_balances [("BTC", 2), ("ETH", 3)]
        [("BTC", 2), ("ETH", 3)] sampleRestBalances =
        some (av2, tot2) ∧
      (∀ e ∈ sampleRestBalances,
        dictGet av2 e.asset = some e.free ∧
        dictGet tot2 e.asset = some (e.free + e.locked)) ∧
      (∀ a, dictContains [("BTC", (2 : ℚ)), ("ETH", 3)] a = true →
        a ∉ sampleRestBalances.map (fun e => e.asset) →
        dictGet av2 a = none ∧ dictGet tot2 a = none)) :=
  ⟨by decide,
   update_balances_snapshot_replace [("BTC", 2), ("ETH", 3)]
     [("BTC", 2), ("ETH", 3)] sampleRestBalances
     (by decide) (by decide) (by decide) (fun a h => h)⟩

/-- Witness for C6: patching BTC only — BTC total becomes 1 + 1/2
while the ETH entry is untouched. -/
theorem outbound_account_position_partial_patch_witness :
    (sampleWsBalances.map (fun e => e.a)).Nodup ∧
    dictGet (handleEvent sampleState
      (.outboundAccountPosition sampleWsBalances)).1.account_balances
      "BTC" = some ((1 : ℚ) + 1/2) ∧
    dictGet (handleEvent sampleState
      (.outboundAccountPosition sampleWsBalances)).1.account_balances
      "ETH" = dictGet sampleState.account_balances "ETH" := by
  have h := outbound_account_position_partial_patch sampleState
    sampleWsBalances (by decide)
  refine ⟨by decide, ?_, ?_⟩
  · exact (h.2.2.2.1 { a := "BTC", f := 1, l := 1/2 }
      (by simp [sampleWsBalances])).2
  · exact (h.2.2.2.2 "ETH" (by decide)).2

/-- The loop consumes one event message and continues with the state
at that event's exit, whether or not a per-event exception was logged. -/
theorem listener_cons_msg (s : ConnState) (m : EventMessage)
    (rest : List QueueItem) :
    userStreamEventListener s (.msg m :: rest) =
      userStreamEventListener (handleEvent s m).1 rest := by
  rcases hh : handleEvent s m with ⟨sx, acts, err⟩
  cases err with
  | none => simp [userStreamEventListener, hh]
  | some e => simp [userStreamEventListener, hh]

/-- C7: the listener loop (1) runs to completion on any queue carrying
no cancellation signal — a per-event failure never halts it; (2) stops
immediately when a cancellation surfaces, having processed exactly the
events before it; and (3) an `executionReport` whose status string is
not in the `ORDER_STATE` table raises `KeyError` for a tracked
updatable order, after which the loop simply continues with the next
event. -/
theorem user_stream_loop_resilience :
    (∀ (s : ConnState) (items : List QueueItem),
      QueueItem.cancelSignal ∉ items →
      ∃ s2, userStreamEventListener s items = .completed s2) ∧
    (∀ (s : ConnState) (pre post : List QueueItem),
      QueueItem.cancelSignal ∉ pre →
      userStreamEventListener s (pre ++ QueueItem.cancelSignal :: post) =
        .cancelled (pre.foldl stepState s)) ∧
    (∀ (s : ConnState) (r : ExecReport) (rest : List QueueItem),
      orderStateOf r.X = none →
      (userStreamEventListener s (.msg (.executionReport r) :: rest) =
        userStreamEventListener
          (handleEvent s (.executionReport r)).1 rest) ∧
      (all_updatable_orders_get s r.C ≠ none →
        (handleEvent s (.executionReport r)).2.2 =
          some ListenerErr.keyError)) := by
  refine ⟨?_, ?_, ?_⟩
  · intro s items
    induction items generalizing s with
    | nil => exact fun _ => ⟨s, rfl⟩
    | cons it rest ih =>
      intro h
      cases it with
      | cancelSignal => exact absurd (List.mem_cons_self _ _) h
      | msg m =>
        obtain ⟨s2, hs2⟩ := ih (handleEvent s m).1
          (fun hy => h (List.mem_cons_of_mem _ hy))
        exact ⟨s2, (listener_cons_msg s m rest).trans hs2⟩
  · intro s pre post
    induction pre generalizing s with
    | nil => exact fun _ => rfl
    | cons it pre2 ih =>
      intro h
      cases it with
      | cancelSignal => exact absurd (List.mem_cons_self _ _) h
      | msg m =>
        rw [List.cons_append, listener_cons_msg,
          ih (handleEvent s m).1 (fun hy => h (List.mem_cons_of_mem _ hy))]
        rfl
  · intro s r rest hnone
    have hne1 : ¬ r.X = "PARTIALLY_FILLED" := by
      intro hx
      rw [hx] at hnone
      exact absurd hnone (by decide)
    have hne2 : ¬ r.X = "FILLED" := by
      intro hx
      rw [hx] at hnone
      exact absurd hnone (by decide)
    refine ⟨listener_cons_msg s (.executionReport r) rest, ?_⟩
    intro hupd
    rcases hu : all_updatable_orders_get s r.C with _ | ord
    · exact absurd hu hupd
    · rcases hf : all_fillable_orders_get s r.C with _ | ord0
      · simp [handleEvent, hf, hu, hnone, hne1, hne2]
      · simp [handleEvent, hf, hu, hnone, hne1, hne2]

/-- Witness for C7: a queue with a bad-status event still completes; a
queue with a cancellation stops right there; the unrecognized status
string `"WEIRD"` on a tracked order raises the logged `KeyError`. -/
theorem user_stream_loop_resilience_witness :
    (∃ s2, userStreamEventListener sampleState
      [QueueItem.msg .other,
       QueueItem.msg (.executionReport sampleWeirdReport)] =
      .completed s2) ∧
    userStreamEventListener sampleState
      [QueueItem.msg .other, QueueItem.cancelSignal,
       QueueItem.msg .other] =
      .cancelled ([QueueItem.msg .other].foldl stepState sampleState) ∧
    (handleEvent sampleState
      (.executionReport sampleWeirdReport)).2.2 =
      some ListenerErr.keyError := by
  refine ⟨user_stream_loop_resilience.1 sampleState _ (by decide),
    user_stream_loop_resilience.2.1 sampleState [QueueItem.msg .other]
      [QueueItem.msg .other] (by decide), ?_⟩
  refine (user_stream_loop_resilience.2.2 sampleState sampleWeirdReport
    [] (by decide)).2 ?_
  intro hcontra
  simp [all_updatable_orders_get, sampleState, dictGet,
    sampleWeirdReport, samplePartialFill] at hcontra

/-- Every state's rank is at most the terminal rank. -/
theorem rank_le_four (st : OrderState) : st.rank ≤ 4 := by
  cases st <;> decide

/-- C3: when the venue's cancel response carries a (matching) truthy
order id, `_place_cancel` asserts `CANCELED` through the tracker and
returns `True` (the state is `CANCELED` whenever the order was not
already terminal and the wall clock is not behind the order's last
update); when the response does not acknowledge the cancel, the order
is resolved through the tracker's not-found path, no error is raised
(the call returns normally with `False`), and an order already in a
terminal state keeps its state. -/
theorem place_cancel_ack_and_not_found (nowTime : ℚ) (s : ConnState)
    (ord : InFlightOrder) (resp : CancelApiResult)
    (hget : dictGet s.orders ord.client_order_id = some ord) :
    (∀ oid, resp = .dictResp (some oid) → oid ≠ "" →
      ord.exchange_order_id = some oid →
      (place_cancel nowTime s ord resp).2.1 = true ∧
      (ord.current_state.isTerminalState = false →
        ord.last_update_timestamp ≤ nowTime →
        ∃ o2, dictGet (place_cancel nowTime s ord resp).1.orders
            ord.client_order_id = some o2 ∧
          o2.current_state = OrderState.CANCELED)) ∧
    (cancelAck resp = false →
      (place_cancel nowTime s ord resp).2.1 = false ∧
      (place_cancel nowTime s ord resp).1 =
        processOrderNotFound s ord.client_order_id ∧
      (ord.current_state.isTerminalState = true →
        dictGet (place_cancel nowTime s ord resp).1.orders
          ord.client_order_id = some ord)) := by
  constructor
  · intro oid hresp hne hmatch
    have hack : cancelAck resp = true := by
      rw [hresp]
      simp [cancelAck, hne]
    constructor
    · simp [place_cancel, hack]
    · intro hterm hts
      refine ⟨(ord.applyOrderUpdate
        { trading_pair := ord.trading_pair
          update_timestamp := nowTime
          new_state := .CANCELED
          client_order_id := ord.client_order_id
          exchange_order_id := ord.exchange_order_id }), ?_, ?_⟩
      · simp [place_cancel, hack, processOrderUpdate,
          dictGet_dictUpdate_self, hget]
      · rw [InFlightOrder.applyOrderUpdate]
        rw [if_neg (by rw [hterm]; exact Bool.false_ne_true)]
        rw [if_neg (not_lt.mpr hts)]
        rw [if_neg (by
          show ¬ OrderState.rank .CANCELED < ord.current_state.rank
          exact not_lt.mpr (rank_le_four ord.current_state))]
  · intro hackf
    refine ⟨by simp [place_cancel, hackf], by simp [place_cancel, hackf],
      ?_⟩
    intro hterm
    rw [show (place_cancel nowTime s ord resp).1 =
      processOrderNotFound s ord.client_order_id by
        simp [place_cancel, hackf]]
    rw [processOrderNotFound]
    simp only [dictGet_dictUpdate_self, hget]
    simp [hterm]

/-- Witness for C3: acknowledging the cancel of the pending sample
order marks it `CANCELED` and returns true; a non-acknowledging
response for the already-`FILLED` sample order returns false and
leaves it `FILLED`. -/
theorem place_cancel_ack_and_not_found_witness :
    dictGet sampleState.orders sampleOrder.client_order_id =
      some sampleOrder ∧
    (place_cancel 5 sampleState sampleOrder
      (.dictResp (some "99"))).2.1 = true ∧
    (∃ o2, dictGet (place_cancel 5 sampleState sampleOrder
        (.dictResp (some "99"))).1.orders
        sampleOrder.client_order_id = some o2 ∧
      o2.current_state = OrderState.CANCELED) ∧
    (place_cancel 5 sampleState sampleTerminalOrder
      CancelApiResult.nonDict).2.1 = false ∧
    dictGet (place_cancel 5 sampleState sampleTerminalOrder
      CancelApiResult.nonDict).1.orders
      sampleTerminalOrder.client_order_id = some sampleTerminalOrder := by
  have h1 := place_cancel_ack_and_not_found 5 sampleState sampleOrder
    (.dictResp (some "99")) (by decide)
  have h2 := place_cancel_ack_and_not_found 5 sampleState
    sampleTerminalOrder CancelApiResult.nonDict (by decide)
  obtain ⟨ha, hb⟩ := h1.1 "99" rfl (by decide) rfl
  obtain ⟨hc, hd, he⟩ := h2.2 (by decide)
  exact ⟨by decide, ha, hb (by decide) (by norm_num [sampleOrder]),
    hc, he (by decide)⟩

/-- A state update never changes the immutable order fields or the
fill ledger. -/
theorem applyOrderUpdate_frame (o : InFlightOrder) (u : OrderUpdate) :
    (o.applyOrderUpdate u).trading_pair = o.trading_pair ∧
    (o.applyOrderUpdate u).client_order_id = o.client_order_id ∧
    (o.applyOrderUpdate u).order_fills = o.order_fills ∧
    (o.applyOrderUpdate u).executed_amount_base =
      o.executed_amount_base := by
  rw [InFlightOrder.applyOrderUpdate]
  split_ifs <;> exact ⟨rfl, rfl, rfl, rfl⟩

/-- A fill never changes the immutable order fields, the state or the
last update timestamp. -/
theorem applyTradeUpdate_frame (o : InFlightOrder) (t : TradeUpdate) :
    (o.applyTradeUpdate t).trading_pair = o.trading_pair ∧
    (o.applyTradeUpdate t).client_order_id = o.client_order_id ∧
    (o.applyTradeUpdate t).current_state = o.current_state ∧
    (o.applyTradeUpdate t).last_update_timestamp =
      o.last_update_timestamp := by
  rw [InFlightOrder.applyTradeUpdate]
  split_ifs <;> exact ⟨rfl, rfl, rfl, rfl⟩

/-- Appending an entry for key `k` makes the dict contain `k`. -/
theorem dictContains_append_self {α : Type} (m : List (String × α))
    (k : String) (v : α) : dictContains (m ++ [(k, v)]) k = true := by
  induction m with
  | nil => simp [dictContains]
  | cons p rest ih =>
    by_cases h : p.1 = k <;> simp [dictContains, h, ih]

/-- An `OPEN` order accepting a timely `FILLED` update becomes
`FILLED`. -/
theorem applyOrderUpdate_terminalize (o : InFlightOrder)
    (u : OrderUpdate) (h1 : o.current_state = OrderState.OPEN)
    (h2 : ¬ (u.update_timestamp < o.last_update_timestamp))
    (h3 : u.new_state = OrderState.FILLED) :
    (o.applyOrderUpdate u).current_state = OrderState.FILLED := by
  simp [InFlightOrder.applyOrderUpdate, OrderState.isTerminalState,
    OrderState.rank, h1, h2, h3]

/-- C1 (amended): for an `executionReport` with execution type `FILLED`
for a tracked fillable order still in `PENDING_CREATE` (whose key is
its client id and whose last update is not newer than the event), the
listener first applies an order update to `OPEN` carrying the event's
timestamp and exchange order id, then records the fill's trade update,
then applies the generic `FILLED` status update; the final tracked
order is `FILLED` and, for a fresh trade id, its filled amount has
grown by the fill and its ledger holds the trade id. For
`PARTIALLY_FILLED` events no `OPEN` transition is synthesized (see the
counterexample). -/
theorem filled_on_pending_create_synthesizes_open (s : ConnState)
    (r : ExecReport) (cid : String) (ord : InFlightOrder)
    (hC : r.C = some cid) (hget : dictGet s.orders cid = some ord)
    (hkey : ord.client_order_id = cid) (hX : r.X = "FILLED")
    (hpend : ord.current_state = OrderState.PENDING_CREATE)
    (hts : ord.last_update_timestamp ≤ (r.E : ℚ) / 1000) :
    (handleEvent s (.executionReport r)).2.1 =
      [ListenerAction.orderUpd
        ⟨ord.trading_pair, (r.E : ℚ) / 1000, .OPEN, ord.client_order_id,
          some (toString r.i)⟩,
       ListenerAction.tradeUpd
        ⟨toString r.t, ord.client_order_id, toString r.i,
          ord.trading_pair, ⟨none, [⟨r.n, r.N⟩]⟩, r.l, r.l * r.L, r.L,
          (r.E : ℚ) / 1000⟩,
       ListenerAction.orderUpd
        ⟨ord.trading_pair, (r.E : ℚ) / 1000, .FILLED,
          ord.client_order_id, some (toString r.i)⟩] ∧
    (handleEvent s (.executionReport r)).2.2 = none ∧
    (∃ o2, dictGet (handleEvent s (.executionReport r)).1.orders cid =
        some o2 ∧
      o2.current_state = OrderState.FILLED ∧
      (dictContains ord.order_fills (toString r.t) = false →
        o2.executed_amount_base = ord.executed_amount_base + r.l ∧
        dictContains o2.order_fills (toString r.t) = true)) := by
  have hfill : all_fillable_orders_get s r.C = some ord := by
    rw [hC]
    simpa [all_fillable_orders_get] using hget
  have hof : orderStateOf "FILLED" = some OrderState.FILLED := by
    decide
  have hupd : all_updatable_orders_get
      (processTradeUpdate (processOrderUpdate s
        ⟨ord.trading_pair, (r.E : ℚ) / 1000, .OPEN, ord.client_order_id,
          some (toString r.i)⟩)
        ⟨toString r.t, ord.client_order_id, toString r.i,
          ord.trading_pair, ⟨none, [⟨r.n, r.N⟩]⟩, r.l, r.l * r.L, r.L,
          (r.E : ℚ) / 1000⟩) r.C =
      some ((ord.applyOrderUpdate
        ⟨ord.trading_pair, (r.E : ℚ) / 1000, .OPEN, ord.client_order_id,
          some (toString r.i)⟩).applyTradeUpdate
        ⟨toString r.t, ord.client_order_id, toString r.i,
          ord.trading_pair, ⟨none, [⟨r.n, r.N⟩]⟩, r.l, r.l * r.L, r.L,
          (r.E : ℚ) / 1000⟩) := by
    rw [hC]
    simp [all_updatable_orders_get, processTradeUpdate,
      processOrderUpdate, hkey, dictGet_dictUpdate_self, hget]
  have heval : handleEvent s (.executionReport r) =
      (processOrderUpdate (processTradeUpdate (processOrderUpdate s
        ⟨ord.trading_pair, (r.E : ℚ) / 1000, .OPEN, ord.client_order_id,
          some (toString r.i)⟩)
        ⟨toString r.t, ord.client_order_id, toString r.i,
          ord.trading_pair, ⟨none, [⟨r.n, r.N⟩]⟩, r.l, r.l * r.L, r.L,
          (r.E : ℚ) / 1000⟩)
        ⟨ord.trading_pair, (r.E : ℚ) / 1000, .FILLED,
          ord.client_order_id, some (toString r.i)⟩,
       [ListenerAction.orderUpd
        ⟨ord.trading_pair, (r.E : ℚ) / 1000, .OPEN, ord.client_order_id,
          some (toString r.i)⟩,
        ListenerAction.tradeUpd
        ⟨toString r.t, ord.client_order_id, toString r.i,
          ord.trading_pair, ⟨none, [⟨r.n, r.N⟩]⟩, r.l, r.l * r.L, r.L,
          (r.E : ℚ) / 1000⟩,
        ListenerAction.orderUpd
        ⟨ord.trading_pair, (r.E : ℚ) / 1000, .FILLED,
          ord.client_order_id, some (toString r.i)⟩], none) := by
    simp [handleEvent, hfill, hof, hX, hpend, hupd,
      (applyTradeUpdate_frame _ _).1, (applyTradeUpdate_frame _ _).2.1,
      (applyOrderUpdate_frame _ _).1, (applyOrderUpdate_frame _ _).2.1]
  refine ⟨by rw [heval], by rw [heval], ?_⟩
  have hts2 : ¬ ((r.E : ℚ) / 1000 < ord.last_update_timestamp) :=
    not_lt.mpr hts
  have ho1state : (ord.applyOrderUpdate
      ⟨ord.trading_pair, (r.E : ℚ) / 1000, .OPEN, ord.client_order_id,
        some (toString r.i)⟩).current_state = OrderState.OPEN := by
    simp [InFlightOrder.applyOrderUpdate, OrderState.isTerminalState,
      OrderState.rank, hpend, hts2]
  have ho1last : (ord.applyOrderUpdate
      ⟨ord.trading_pair, (r.E : ℚ) / 1000, .OPEN, ord.client_order_id,
        some (toString r.i)⟩).last_update_timestamp = (r.E : ℚ) / 1000
      := by
    simp [InFlightOrder.applyOrderUpdate, OrderState.isTerminalState,
      OrderState.rank, hpend, hts2]
  have ho2state : ((ord.applyOrderUpdate
      ⟨ord.trading_pair, (r.E : ℚ) / 1000, .OPEN, ord.client_order_id,
        some (toString r.i)⟩).applyTradeUpdate
      ⟨toString r.t, ord.client_order_id, toString r.i,
        ord.trading_pair, ⟨none, [⟨r.n, r.N⟩]⟩, r.l, r.l * r.L, r.L,
        (r.E : ℚ) / 1000⟩).current_state = OrderState.OPEN :=
    (applyTradeUpdate_frame _ _).2.2.1.trans ho1state
  have ho2last : ((ord.applyOrderUpdate
      ⟨ord.trading_pair, (r.E : ℚ) / 1000, .OPEN, ord.client_order_id,
        some (toString r.i)⟩).applyTradeUpdate
      ⟨toString r.t, ord.client_order_id, toString r.i,
        ord.trading_pair, ⟨none, [⟨r.n, r.N⟩]⟩, r.l, r.l * r.L, r.L,
        (r.E : ℚ) / 1000⟩).last_update_timestamp = (r.E : ℚ) / 1000 :=
    (applyTradeUpdate_frame _ _).2.2.2.trans ho1last
  have hfinal : dictGet (handleEvent s
      (.executionReport r)).1.orders cid =
      some (((ord.applyOrderUpdate
        ⟨ord.trading_pair, (r.E : ℚ) / 1000, .OPEN, ord.client_order_id,
          some (toString r.i)⟩).applyTradeUpdate
        ⟨toString r.t, ord.client_order_id, toString r.i,
          ord.trading_pair, ⟨none, [⟨r.n, r.N⟩]⟩, r.l, r.l * r.L, r.L,
          (r.E : ℚ) / 1000⟩).applyOrderUpdate
        ⟨ord.trading_pair, (r.E : ℚ) / 1000, .FILLED,
          ord.client_order_id, some (toString r.i)⟩) := by
    rw [heval]
    simp [processOrderUpdate, processTradeUpdate, hkey,
      dictGet_dictUpdate_self, hget]
  refine ⟨_, hfinal, ?_, ?_⟩
  · exact applyOrderUpdate_terminalize _ _ ho2state
      (by simp [ho2last]) rfl
  · intro hfresh
    have hfreshkeys : dictContains (ord.applyOrderUpdate
        ⟨ord.trading_pair, (r.E : ℚ) / 1000, .OPEN, ord.client_order_id,
          some (toString r.i)⟩).order_fills (toString r.t) = false := by
      rw [(applyOrderUpdate_frame _ _).2.2.1]
      exact hfresh
    constructor
    · rw [(applyOrderUpdate_frame _ _).2.2.2]
      simp [InFlightOrder.applyTradeUpdate, hfreshkeys,
        (applyOrderUpdate_frame _ _).2.2.2]
    · rw [(applyOrderUpdate_frame _ _).2.2.1]
      simp [InFlightOrder.applyTradeUpdate, hfreshkeys,
        dictContains_append_self]

/-- C1 counterexample: a `PARTIALLY_FILLED` execution report for a
tracked fillable order still in `PENDING_CREATE` — a fill indication
covered by the claim — produces a non-empty mutation trace that
contains no order update to `OPEN` at all: the listener synthesizes
the implicit `OPEN` acknowledgment only for execution type `FILLED`
(`ourbit_exchange.py` line 342 tests `new_state == OrderState.FILLED`),
so the claim fails for `PARTIALLY_FILLED`. -/
theorem partfill_pending_create_no_open_cex :
    samplePartialFill.X = "PARTIALLY_FILLED" ∧
    all_fillable_orders_get sampleState samplePartialFill.C =
      some sampleOrder ∧
    sampleOrder.current_state = OrderState.PENDING_CREATE ∧
    ((handleEvent sampleState
      (.executionReport samplePartialFill)).2.1.all
      (fun a => ! isOpenAction a)) = true ∧
    (handleEvent sampleState
      (.executionReport samplePartialFill)).2.1 ≠ [] := by
  decide

/-- Witness for C1 at the sample filled report: the hypotheses hold
and the tracked order ends `FILLED`. -/
theorem filled_on_pending_create_synthesizes_open_witness :
    sampleFilledReport.X = "FILLED" ∧
    sampleOrder.current_state = OrderState.PENDING_CREATE ∧
    ∃ o2, dictGet (handleEvent sampleState
        (.executionReport sampleFilledReport)).1.orders "c1" =
        some o2 ∧
      o2.current_state = OrderState.FILLED := by
  have h := filled_on_pending_create_synthesizes_open sampleState
    sampleFilledReport "c1" sampleOrder rfl (by decide) rfl rfl rfl
    (by norm_num [sampleOrder, sampleFilledReport, samplePartialFill])
  obtain ⟨o2, h1, h2, h3⟩ := h.2.2
  exact ⟨rfl, rfl, o2, h1, h2⟩
